import Mathlib

/-!
Verification of the duplicate-bug similarity engine in
`.agent/skills/detecting-duplicate-bugs/scripts/similarity_checker.py`.

Texts are modelled as `List Char` (the script operates on ASCII input;
Python's Unicode-aware regex classes agree with this model on ASCII).
Python floats are modelled by exact arithmetic: rational values where the
computation is rational (`ℚ`), and real values (`ℝ`) where `math.sqrt`
enters, so stated equalities are those of the ideal arithmetic the script
implements.
-/

namespace SimilarityChecker

/-- ASCII lower-casing, as `str.lower()` acts on ASCII characters:
`A`-`Z` maps to `a`-`z`, everything else is unchanged. -/
def lowerChar (c : Char) : Char :=
  if 65 ≤ c.toNat ∧ c.toNat ≤ 90 then Char.ofNat (c.toNat + 32) else c

/-- ASCII letters and digits: the character class `[a-zA-Z0-9]` of the
token pattern in `tokenize`. -/
def isAlnum (c : Char) : Bool :=
  (97 ≤ c.toNat && c.toNat ≤ 122) || (65 ≤ c.toNat && c.toNat ≤ 90) ||
    (48 ≤ c.toNat && c.toNat ≤ 57)

/-- One left-to-right scan implementing `re.findall(r'\b[a-zA-Z0-9]+\b', s)`
on ASCII input.  A maximal alphanumeric run is emitted iff the character
before it (`startOk` records that it was absent or not a word character)
and the character after it are not word characters; among non-alphanumeric
ASCII characters exactly `_` is a word character, so a run touching `_`
fails the `\b` boundary and is dropped.  `run` holds the current run in
reverse, `valid` whether it started at a true `\b` boundary. -/
def tokLoop : List Char → Bool → List Char → Bool → List (List Char)
  | [], _, run, valid =>
    if run.isEmpty then [] else if valid then [run.reverse] else []
  | c :: cs, startOk, run, valid =>
    if isAlnum c then
      if run.isEmpty then tokLoop cs startOk [c] startOk
      else tokLoop cs startOk (c :: run) valid
    else
      (if !run.isEmpty && valid && !(c == '_') then [run.reverse] else []) ++
        tokLoop cs (!(c == '_')) [] true

/-- `tokenize(text)`: `re.findall(r'\b[a-zA-Z0-9]+\b', text.lower())`. -/
def tokenize (text : List Char) : List (List Char) :=
  tokLoop (text.map lowerChar) true [] true

/-- Scanner for the spec-side tokenizer: every maximal alphanumeric run is
emitted, with no word-boundary condition. -/
def specLoop : List Char → List Char → List (List Char)
  | [], run => if run.isEmpty then [] else [run.reverse]
  | c :: cs, run =>
    if isAlnum c then specLoop cs (c :: run)
    else (if run.isEmpty then [] else [run.reverse]) ++ specLoop cs []

/-- Modelled from the spec: "an ordered sequence of lower-cased
alphanumeric tokens, where a token is a maximal run of ASCII letters/digits
bounded by non-alphanumeric boundaries".  Reference definition used to
compare the implemented tokenizer against the spec's contract. -/
def specTokenize (text : List Char) : List (List Char) :=
  specLoop (text.map lowerChar) []

/-- Dot product of two equal-length count vectors:
`sum(a * b for a, b in zip(vec1, vec2))`. -/
def dotProd (v1 v2 : List ℕ) : ℕ :=
  ((v1.zip v2).map (fun p => p.1 * p.2)).sum

/-- Sum of squares of a count vector; `magnitude = sqrt (sqSum v)`, and the
script's guard `magnitude == 0` holds exactly when `sqSum v = 0`. -/
def sqSum (v : List ℕ) : ℕ :=
  (v.map (fun a => a * a)).sum

/-- Vocabulary `set(tokens1) | set(tokens2)`, as a duplicate-free list (the
set's iteration order does not affect the sums taken over it). -/
def vocabOf (tokens1 tokens2 : List (List Char)) : List (List Char) :=
  (tokens1 ++ tokens2).dedup

/-- Frequency vector `[tokens.count(word) for word in vocab]`. -/
def vecOf (tokens : List (List Char)) (vocab : List (List Char)) : List ℕ :=
  vocab.map (fun w => tokens.count w)

/-- `cosine_similarity(text1, text2)`: 0.0 when either token list is empty
or either magnitude is zero, else `dot / (magnitude1 * magnitude2)` where
`magnitude i = sqrt (sqSum (vec i))`. -/
noncomputable def cosine_similarity (text1 text2 : List Char) : ℝ :=
  if tokenize text1 = [] ∨ tokenize text2 = [] then 0
  else
    let vocab := vocabOf (tokenize text1) (tokenize text2)
    let vec1 := vecOf (tokenize text1) vocab
    let vec2 := vecOf (tokenize text2) vocab
    if sqSum vec1 = 0 ∨ sqSum vec2 = 0 then 0
    else (dotProd vec1 vec2 : ℝ) /
      (Real.sqrt (sqSum vec1) * Real.sqrt (sqSum vec2))

/-- `keyword_overlap(summary1, summary2)`: Jaccard overlap of the distinct
token sets, 0.0 when either set is empty. -/
def keyword_overlap (summary1 summary2 : List Char) : ℚ :=
  let s1 := (tokenize summary1).dedup
  let s2 := (tokenize summary2).dedup
  if s1 = [] ∨ s2 = [] then 0
  else ((s1.filter (fun w => decide (w ∈ s2))).length : ℚ) /
    (((s1 ++ s2).dedup).length : ℚ)

/-- Length of the common prefix of two suffixes: how far a matching block
starting at a given pair of positions extends. -/
def extLen : List Char → List Char → ℕ
  | a :: as, b :: bs => if a = b then extLen as bs + 1 else 0
  | _, _ => 0

/-- `SequenceMatcher.find_longest_match` over whole strings: the longest
matching contiguous block, preferring (for equal length) the block starting
earliest in `a`, then earliest in `b`.  Returns `(i, j, k)`. -/
def bestMatch (a b : List Char) : ℕ × ℕ × ℕ :=
  (List.range a.length).foldl
    (fun acc i =>
      (List.range b.length).foldl
        (fun acc j =>
          let k := extLen (a.drop i) (b.drop j)
          if acc.2.2 < k then (i, j, k) else acc)
        acc)
    (0, 0, 0)

/-- Total size of the matching blocks of `SequenceMatcher.get_matching_blocks`:
take the longest match, then recurse on the unmatched remainders on either
side.  Structural fuel makes the recursion computable by the kernel; fuel
`a.length + b.length` always suffices since each recursive call strictly
shrinks the combined length. -/
def matchTotalF : ℕ → List Char → List Char → ℕ
  | 0, _, _ => 0
  | fuel + 1, a, b =>
    let m := bestMatch a b
    if m.2.2 = 0 then 0
    else
      matchTotalF fuel (a.take m.1) (b.take m.2.1) + m.2.2 +
        matchTotalF fuel (a.drop (m.1 + m.2.2)) (b.drop (m.2.1 + m.2.2))

/-- Total matched size `M` for two strings. -/
def matchTotal (a b : List Char) : ℕ :=
  matchTotalF (a.length + b.length) a b

/-- `SequenceMatcher.ratio()`: `2*M / (len(a) + len(b))`, defined as 1.0
when both strings are empty (difflib's `_calculate_ratio`). -/
def ratioQ (a b : List Char) : ℚ :=
  if a.length + b.length = 0 then 1
  else (2 * matchTotal a b : ℚ) / ((a.length + b.length : ℕ) : ℚ)

/-- `sequence_similarity(text1, text2)`:
`SequenceMatcher(None, text1.lower(), text2.lower()).ratio()`.  difflib's
`autojunk` heuristic is not modelled: it only affects second arguments of
length at least 200, and never changes the ratio of identical strings
(the junk-extension step of `find_longest_match` recovers the full match). -/
def sequence_similarity (text1 text2 : List Char) : ℚ :=
  ratioQ (text1.map lowerChar) (text2.map lowerChar)

/-- A bug report record.  Every field is optional: the script reads fields
with `dict.get`, so an absent field is `none`.  `summary`, `description`
and `steps_to_reproduce` are read with default `''`; `component` is read
with `new_bug.get('component')`, i.e. with no default, so an absent
component stays `none`. -/
structure Bug where
  key : Option (List Char)
  url : Option (List Char)
  summary : Option (List Char)
  description : Option (List Char)
  component : Option (List Char)
  steps_to_reproduce : Option (List Char)
deriving DecidableEq

/-- Field weights, the `weights` dict of `calculate_bug_similarity`. -/
structure Weights where
  summary : ℝ
  description : ℝ
  component : ℝ
  steps : ℝ

/-- The default weights `{'summary': .40, 'description': .40,
'component': .10, 'steps': .10}`. -/
noncomputable def defaultWeights : Weights :=
  ⟨0.40, 0.40, 0.10, 0.10⟩

/-- The per-field breakdown dict returned by `calculate_bug_similarity`. -/
structure Breakdown where
  summary : ℝ
  description : ℝ
  component : ℝ
  steps : ℝ
  overall : ℝ

/-- One entry of the match list built by `find_duplicates`. -/
structure Match where
  key : List Char
  summary : List Char
  similarity : ℝ
  breakdown : Breakdown
  url : List Char

/-- Round half to even on exact reals, as Python's `round` resolves a value
exactly halfway between two integers (away from such ties it is ordinary
nearest-integer rounding). -/
noncomputable def roundHalfEven (x : ℝ) : ℤ :=
  if Int.fract x < 1 / 2 then ⌊x⌋
  else if 1 / 2 < Int.fract x then ⌊x⌋ + 1
  else if Even ⌊x⌋ then ⌊x⌋ else ⌊x⌋ + 1

/-- `round(x, 3)` in ideal arithmetic: the nearest multiple of `1/1000`. -/
noncomputable def round3 (x : ℝ) : ℝ :=
  (roundHalfEven (x * 1000) : ℝ) / 1000

/-- `new_bug.get('summary', '')`. -/
def Bug.summaryText (b : Bug) : List Char := b.summary.getD []

/-- `new_bug.get('description', '')`. -/
def Bug.descriptionText (b : Bug) : List Char := b.description.getD []

/-- `new_bug.get('steps_to_reproduce', '')`. -/
def Bug.stepsText (b : Bug) : List Char := b.steps_to_reproduce.getD []

/-- `summary_sim = (summary_cos + summary_key) / 2`. -/
noncomputable def summary_sim (new_bug existing_bug : Bug) : ℝ :=
  (cosine_similarity new_bug.summaryText existing_bug.summaryText +
    (keyword_overlap new_bug.summaryText existing_bug.summaryText : ℝ)) / 2

/-- `desc_sim = cosine_similarity(description, description)`. -/
noncomputable def desc_sim (new_bug existing_bug : Bug) : ℝ :=
  cosine_similarity new_bug.descriptionText existing_bug.descriptionText

/-- `comp_sim = 1.0 if new_bug.get('component') == existing_bug.get('component')
else 0.0` — the raw optional values are compared, so an absent component
equals only an absent component. -/
noncomputable def comp_sim (new_bug existing_bug : Bug) : ℝ :=
  if new_bug.component = existing_bug.component then 1 else 0

/-- `steps_sim = sequence_similarity(steps, steps)`. -/
noncomputable def steps_sim (new_bug existing_bug : Bug) : ℝ :=
  ((sequence_similarity new_bug.stepsText existing_bug.stepsText : ℚ) : ℝ)

/-- The weighted average `overall`. -/
noncomputable def overallScore (new_bug existing_bug : Bug) (weights : Weights) : ℝ :=
  summary_sim new_bug existing_bug * weights.summary +
    desc_sim new_bug existing_bug * weights.description +
    comp_sim new_bug existing_bug * weights.component +
    steps_sim new_bug existing_bug * weights.steps

/-- `calculate_bug_similarity(new_bug, existing_bug, weights)`: the pair
`(overall, breakdown)`, the breakdown holding each value rounded to three
decimal places.  The weights are used as given: the function performs no
validation of any kind on them. -/
noncomputable def calculate_bug_similarity (new_bug existing_bug : Bug)
    (weights : Weights) : ℝ × Breakdown :=
  (overallScore new_bug existing_bug weights,
    ⟨round3 (summary_sim new_bug existing_bug),
      round3 (desc_sim new_bug existing_bug),
      round3 (comp_sim new_bug existing_bug),
      round3 (steps_sim new_bug existing_bug),
      round3 (overallScore new_bug existing_bug weights)⟩)

/-- The match dict appended for a retained candidate. -/
noncomputable def mkMatch (new_bug candidate : Bug) : Match :=
  ⟨candidate.key.getD ("UNKNOWN".toList),
    candidate.summary.getD [],
    (calculate_bug_similarity new_bug candidate defaultWeights).1,
    (calculate_bug_similarity new_bug candidate defaultWeights).2,
    candidate.url.getD []⟩

/-- `matches.sort(key=lambda x: x['similarity'], reverse=True)`: the stable
descending sort by score.  Any stable sort is extensionally determined by
the key order, so the list `insertionSort` with this relation is the
sorted list Python's stable sort produces. -/
noncomputable def sortDesc (l : List Match) : List Match :=
  List.insertionSort (fun x y => y.similarity ≤ x.similarity) l

/-- `find_duplicates(new_bug, candidates, threshold)`: score every candidate
with the DEFAULT weights (the function takes no weights argument), keep it
when `score >= threshold`, and sort the kept matches by unrounded score,
descending, stably. -/
noncomputable def find_duplicates (new_bug : Bug) (candidates : List Bug)
    (threshold : ℝ) : List Match :=
  sortDesc (candidates.filterMap (fun candidate =>
    if threshold ≤ (calculate_bug_similarity new_bug candidate defaultWeights).1
    then some (mkMatch new_bug candidate) else none))

/-- Modelled from the spec: the WeightConfig invariant "all weights are
non-negative and sum to exactly 1.0 (within floating tolerance, e.g.
1e-6)".  The script contains no such check; this predicate only states
which configs the spec calls valid. -/
def Weights.sumsWithinTolerance (w : Weights) : Prop :=
  |w.summary + w.description + w.component + w.steps - 1| ≤ 1 / 1000000

section TokenizerLemmas

lemma toNat_ofNat_small {n : ℕ} (h : n < 55296) : (Char.ofNat n).toNat = n := by
  have hv : Nat.isValidChar n := Or.inl h
  simp [Char.ofNat, hv, Char.ofNatAux, Char.toNat, UInt32.toNat]

lemma lowerChar_eq_underscore {c : Char} (h : lowerChar c = '_') : c = '_' := by
  unfold lowerChar at h
  by_cases hc : 65 ≤ c.toNat ∧ c.toNat ≤ 90
  · rw [if_pos hc] at h
    have h2 : (Char.ofNat (c.toNat + 32)).toNat = Char.toNat '_' := congrArg Char.toNat h
    rw [toNat_ofNat_small (by omega)] at h2
    have : Char.toNat '_' = 95 := by decide
    omega
  · rwa [if_neg hc] at h

lemma underscore_not_mem_map {s : List Char} (h : '_' ∉ s) :
    '_' ∉ s.map lowerChar := by
  intro hmem
  obtain ⟨c, hc, heq⟩ := List.mem_map.mp hmem
  exact h (lowerChar_eq_underscore heq ▸ hc)

lemma tokLoop_eq_specLoop :
    ∀ (cs : List Char), '_' ∉ cs → ∀ run, tokLoop cs true run true = specLoop cs run := by
  intro cs
  induction cs with
  | nil =>
    intro _ run
    simp only [tokLoop, specLoop]
    by_cases h : run.isEmpty <;> simp [h]
  | cons c cs ih =>
    intro hmem run
    have hc : ¬ (c = '_') := fun h => hmem (h ▸ List.mem_cons_self c cs)
    have hcs : '_' ∉ cs := fun h => hmem (List.mem_cons_of_mem c h)
    simp only [tokLoop, specLoop]
    by_cases ha : isAlnum c
    · rw [if_pos ha, if_pos ha]
      by_cases hr : run.isEmpty
      · have : run = [] := List.isEmpty_iff.mp hr
        subst this
        simp only [List.isEmpty_nil, if_pos]
        exact ih hcs [c]
      · rw [if_neg hr]
        exact ih hcs (c :: run)
    · rw [if_neg ha, if_neg ha]
      have hbeq : (c == '_') = false := beq_false_of_ne hc
      rw [hbeq]
      simp only [Bool.not_false, Bool.and_true]
      rw [ih hcs []]
      by_cases hr : run.isEmpty <;> simp [hr]

lemma tokenize_eq_specTokenize {text : List Char} (h : '_' ∉ text) :
    tokenize text = specTokenize text :=
  tokLoop_eq_specLoop (text.map lowerChar) (underscore_not_mem_map h) []

end TokenizerLemmas

section SequenceLemmas

lemma extLen_self : ∀ (l : List Char), extLen l l = l.length
  | [] => rfl
  | c :: cs => by simp [extLen, extLen_self cs]

lemma extLen_le_left : ∀ (a b : List Char), extLen a b ≤ a.length
  | [], _ => Nat.le_refl 0
  | _ :: _, [] => by simp [extLen]
  | a :: as, b :: bs => by
    by_cases h : a = b
    · simpa [extLen, h] using extLen_le_left as bs
    · simp [extLen, h]

lemma foldl_inner_keep (a b : List Char) (i : ℕ) :
    ∀ (js : List ℕ) (acc : ℕ × ℕ × ℕ),
      (∀ j ∈ js, extLen (a.drop i) (b.drop j) ≤ acc.2.2) →
      js.foldl (fun acc j =>
        let k := extLen (a.drop i) (b.drop j)
        if acc.2.2 < k then (i, j, k) else acc) acc = acc
  | [], _, _ => rfl
  | j :: js, acc, h => by
    rw [List.foldl_cons]
    have hj : extLen (a.drop i) (b.drop j) ≤ acc.2.2 := h j (List.mem_cons_self j js)
    simp only [if_neg (Nat.not_lt.mpr hj)]
    exact foldl_inner_keep a b i js acc (fun j' hj' => h j' (List.mem_cons_of_mem j hj'))

lemma foldl_outer_keep (a b : List Char) (js : List ℕ) :
    ∀ (is : List ℕ) (acc : ℕ × ℕ × ℕ),
      (∀ i ∈ is, ∀ j ∈ js, extLen (a.drop i) (b.drop j) ≤ acc.2.2) →
      is.foldl (fun acc i =>
        js.foldl (fun acc j =>
          let k := extLen (a.drop i) (b.drop j)
          if acc.2.2 < k then (i, j, k) else acc) acc) acc = acc
  | [], _, _ => rfl
  | i :: is, acc, h => by
    rw [List.foldl_cons]
    rw [foldl_inner_keep a b i js acc
      (fun j hj => h i (List.mem_cons_self i is) j hj)]
    exact foldl_outer_keep a b js is acc
      (fun i' hi' j hj => h i' (List.mem_cons_of_mem i hi') j hj)

lemma bestMatch_nil_left (b : List Char) : bestMatch [] b = (0, 0, 0) := by
  simp [bestMatch]

lemma bestMatch_nil_right (a : List Char) : bestMatch a [] = (0, 0, 0) := by
  unfold bestMatch
  exact foldl_outer_keep a [] (List.range (List.length ([] : List Char))) (List.range a.length) (0, 0, 0) (by simp)

lemma matchTotalF_nil_left : ∀ (fuel : ℕ) (b : List Char), matchTotalF fuel [] b = 0
  | 0, _ => rfl
  | fuel + 1, b => by simp [matchTotalF, bestMatch_nil_left]

lemma matchTotalF_nil_right : ∀ (fuel : ℕ) (a : List Char), matchTotalF fuel a [] = 0
  | 0, _ => rfl
  | fuel + 1, a => by simp [matchTotalF, bestMatch_nil_right]

lemma bestMatch_self {s : List Char} (h : s ≠ []) :
    bestMatch s s = (0, 0, s.length) := by
  obtain ⟨m, hm⟩ : ∃ m, s.length = m + 1 := by
    cases s with
    | nil => exact absurd rfl h
    | cons c cs => exact ⟨cs.length, rfl⟩
  unfold bestMatch
  rw [hm, List.range_succ_eq_map, List.foldl_cons]
  have hfirst :
      (0 :: (List.range m).map Nat.succ).foldl (fun acc j =>
        let k := extLen (s.drop 0) (s.drop j)
        if acc.2.2 < k then (0, j, k) else acc) (0, 0, 0) = (0, 0, m + 1) := by
    rw [List.foldl_cons]
    have hk : extLen (s.drop 0) (s.drop 0) = m + 1 := by
      simp [extLen_self, hm]
    simp only [hk, if_pos (Nat.succ_pos m)]
    exact foldl_inner_keep s s 0 ((List.range m).map Nat.succ) (0, 0, m + 1)
      (fun j _ => by
        simpa [hm] using extLen_le_left (s.drop 0) (s.drop j))
  rw [hfirst]
  exact foldl_outer_keep s s (0 :: (List.range m).map Nat.succ) ((List.range m).map Nat.succ) (0, 0, m + 1)
    (fun i _ j _ => by
      calc extLen (s.drop i) (s.drop j) ≤ (s.drop i).length := extLen_le_left _ _
        _ ≤ s.length := by simp
        _ = m + 1 := hm)

lemma matchTotal_self {s : List Char} (h : s ≠ []) : matchTotal s s = s.length := by
  obtain ⟨m, hm⟩ : ∃ m, s.length = m + 1 := by
    cases s with
    | nil => exact absurd rfl h
    | cons c cs => exact ⟨cs.length, rfl⟩
  have hlen : s.length ≠ 0 := by simpa [List.length_eq_zero] using h
  have key : ∀ fuel, matchTotalF (fuel + 1) s s = s.length := by
    intro fuel
    have hstep : matchTotalF (fuel + 1) s s =
        (if (bestMatch s s).2.2 = 0 then 0
         else matchTotalF fuel (s.take (bestMatch s s).1) (s.take (bestMatch s s).2.1) +
           (bestMatch s s).2.2 +
           matchTotalF fuel (s.drop ((bestMatch s s).1 + (bestMatch s s).2.2))
             (s.drop ((bestMatch s s).2.1 + (bestMatch s s).2.2))) := rfl
    rw [hstep, bestMatch_self h]
    rw [if_neg hlen]
    simp [List.drop_length, matchTotalF_nil_left]
  unfold matchTotal
  rw [hm]
  have h2 : m + 1 + (m + 1) = (2 * m + 1) + 1 := by ring
  rw [h2, key]
  exact hm

lemma ratioQ_self (s : List Char) : ratioQ s s = 1 := by
  by_cases h : s = []
  · subst h; simp [ratioQ]
  · have hl : s.length ≠ 0 := by simpa [List.length_eq_zero] using h
    unfold ratioQ
    rw [if_neg (by omega), matchTotal_self h]
    have hcast : ((s.length + s.length : ℕ) : ℚ) = 2 * (s.length : ℚ) := by
      push_cast; ring
    rw [hcast]
    rw [div_self (by
      have : (s.length : ℚ) ≠ 0 := Nat.cast_ne_zero.mpr hl
      positivity)]

lemma ratioQ_nil_left {b : List Char} (h : b ≠ []) : ratioQ [] b = 0 := by
  have hl : b.length ≠ 0 := by simpa [List.length_eq_zero] using h
  unfold ratioQ matchTotal
  rw [if_neg (by simp [hl])]
  simp [matchTotalF_nil_left]

lemma ratioQ_nil_right {a : List Char} (h : a ≠ []) : ratioQ a [] = 0 := by
  have hl : a.length ≠ 0 := by simpa [List.length_eq_zero] using h
  unfold ratioQ matchTotal
  rw [if_neg (by simp [hl])]
  simp [matchTotalF_nil_right]

lemma sequence_similarity_self (t : List Char) : sequence_similarity t t = 1 :=
  ratioQ_self (t.map lowerChar)

lemma map_lower_ne_nil {t : List Char} (h : t ≠ []) : t.map lowerChar ≠ [] := by
  simpa [List.map_eq_nil_iff] using h

lemma sequence_similarity_nil_left {t : List Char} (h : t ≠ []) :
    sequence_similarity [] t = 0 := by
  unfold sequence_similarity
  simpa using ratioQ_nil_left (map_lower_ne_nil h)

lemma sequence_similarity_nil_right {t : List Char} (h : t ≠ []) :
    sequence_similarity t [] = 0 := by
  unfold sequence_similarity
  simpa using ratioQ_nil_right (map_lower_ne_nil h)

end SequenceLemmas

section CosineLemmas

lemma tokenize_nil : tokenize [] = [] := rfl

lemma zip_self_map (v : List ℕ) :
    (v.zip v).map (fun p => p.1 * p.2) = v.map (fun a => a * a) := by
  induction v with
  | nil => rfl
  | cons a l ih => simp [List.zip_cons_cons, ih]

lemma dotProd_self (v : List ℕ) : dotProd v v = sqSum v := by
  unfold dotProd sqSum
  rw [zip_self_map]

lemma cosine_nil_left {t1 : List Char} (h : tokenize t1 = []) (t2 : List Char) :
    cosine_similarity t1 t2 = 0 := by
  simp only [cosine_similarity]
  rw [if_pos (Or.inl h)]

lemma cosine_nil_right (t1 : List Char) {t2 : List Char} (h : tokenize t2 = []) :
    cosine_similarity t1 t2 = 0 := by
  simp only [cosine_similarity]
  rw [if_pos (Or.inr h)]

lemma sqSum_self_ne_zero {t : List Char} (h : tokenize t ≠ []) :
    sqSum (vecOf (tokenize t) (vocabOf (tokenize t) (tokenize t))) ≠ 0 := by
  obtain ⟨w, rest, hw⟩ : ∃ w rest, tokenize t = w :: rest := by
    cases htk : tokenize t with
    | nil => exact absurd htk h
    | cons w rest => exact ⟨w, rest, rfl⟩
  have hwv : w ∈ vocabOf (tokenize t) (tokenize t) :=
    List.mem_dedup.mpr (List.mem_append_left _ (hw ▸ List.mem_cons_self w rest))
  have hcount : 0 < (tokenize t).count w :=
    List.count_pos_iff.mpr (hw ▸ List.mem_cons_self w rest)
  have hmem : (tokenize t).count w * (tokenize t).count w ∈
      (vecOf (tokenize t) (vocabOf (tokenize t) (tokenize t))).map (fun a => a * a) := by
    unfold vecOf
    rw [List.map_map]
    exact List.mem_map_of_mem _ hwv
  have hle := List.single_le_sum (fun x _ => Nat.zero_le x) _ hmem
  have hpos := Nat.mul_pos hcount hcount
  unfold sqSum
  omega

lemma cosine_self {t : List Char} (h : tokenize t ≠ []) :
    cosine_similarity t t = 1 := by
  have hS := sqSum_self_ne_zero h
  simp only [cosine_similarity]
  rw [if_neg (by simp [h])]
  show (if sqSum (vecOf (tokenize t) (vocabOf (tokenize t) (tokenize t))) = 0 ∨
      sqSum (vecOf (tokenize t) (vocabOf (tokenize t) (tokenize t))) = 0 then (0 : ℝ)
    else (dotProd (vecOf (tokenize t) (vocabOf (tokenize t) (tokenize t)))
        (vecOf (tokenize t) (vocabOf (tokenize t) (tokenize t))) : ℝ) /
      (Real.sqrt (sqSum (vecOf (tokenize t) (vocabOf (tokenize t) (tokenize t)))) *
        Real.sqrt (sqSum (vecOf (tokenize t) (vocabOf (tokenize t) (tokenize t)))))) = 1
  rw [if_neg (by simp [hS])]
  rw [dotProd_self, Real.mul_self_sqrt (Nat.cast_nonneg _)]
  exact div_self (Nat.cast_ne_zero.mpr hS)

lemma keyword_nil_left {t1 : List Char} (h : tokenize t1 = []) (t2 : List Char) :
    keyword_overlap t1 t2 = 0 := by
  simp only [keyword_overlap]
  rw [if_pos (Or.inl (by simp [h]))]

lemma keyword_nil_right (t1 : List Char) {t2 : List Char} (h : tokenize t2 = []) :
    keyword_overlap t1 t2 = 0 := by
  simp only [keyword_overlap]
  rw [if_pos (Or.inr (by simp [h]))]

lemma keyword_overlap_self {t : List Char} (h : tokenize t ≠ []) :
    keyword_overlap t t = 1 := by
  have hd : (tokenize t).dedup ≠ [] := by
    simpa [List.dedup_eq_nil] using h
  simp only [keyword_overlap]
  rw [if_neg (by simp [hd])]
  have hfil : (tokenize t).dedup.filter (fun w => decide (w ∈ (tokenize t).dedup)) =
      (tokenize t).dedup :=
    List.filter_eq_self.mpr (fun a ha => decide_eq_true ha)
  have hunion : (((tokenize t).dedup ++ (tokenize t).dedup).dedup).length =
      (tokenize t).dedup.length := by
    rw [← List.card_toFinset, List.toFinset_append, Finset.union_self,
      List.card_toFinset, List.dedup_idem]
  rw [hfil, hunion]
  have hlen : ((tokenize t).dedup.length : ℚ) ≠ 0 :=
    Nat.cast_ne_zero.mpr (by simpa [List.length_eq_zero] using hd)
  exact div_self hlen

end CosineLemmas

section RoundingLemmas

lemma round3_exact (q : ℤ) : round3 ((q : ℝ) / 1000) = (q : ℝ) / 1000 := by
  unfold round3 roundHalfEven
  have hx : ((q : ℝ) / 1000) * 1000 = (q : ℝ) := by ring
  rw [hx, Int.fract_intCast, if_pos (by norm_num), Int.floor_intCast]

lemma round3_zero : round3 0 = 0 := by
  have h : (0 : ℝ) = ((0 : ℤ) : ℝ) / 1000 := by norm_num
  rw [h, round3_exact]

lemma round3_one : round3 1 = 1 := by
  have h : (1 : ℝ) = ((1000 : ℤ) : ℝ) / 1000 := by norm_num
  rw [h, round3_exact]

lemma round3_hi {x : ℝ} {n : ℤ} (hfl : ⌊x * 1000⌋ = n) (hgt : 1 / 2 < x * 1000 - n) :
    round3 x = ((n : ℝ) + 1) / 1000 := by
  unfold round3 roundHalfEven
  have hfr : Int.fract (x * 1000) = x * 1000 - n := by
    rw [Int.fract, hfl]
  rw [hfr, if_neg (by linarith), if_pos hgt, hfl]
  push_cast
  ring

lemma round3_lo {x : ℝ} {n : ℤ} (hfl : ⌊x * 1000⌋ = n) (hlt : x * 1000 - n < 1 / 2) :
    round3 x = (n : ℝ) / 1000 := by
  unfold round3 roundHalfEven
  have hfr : Int.fract (x * 1000) = x * 1000 - n := by
    rw [Int.fract, hfl]
  rw [hfr, if_pos hlt, hfl]

lemma round3_sixth : round3 ((1 : ℝ) / 6) = 167 / 1000 := by
  have hfl : ⌊((1 : ℝ) / 6) * 1000⌋ = 166 := by
    rw [Int.floor_eq_iff]
    constructor <;> norm_num
  have := round3_hi hfl (by norm_num)
  rw [this]
  norm_num

lemma round3_twothirds : round3 ((2 : ℝ) / 3) = 667 / 1000 := by
  have hfl : ⌊((2 : ℝ) / 3) * 1000⌋ = 666 := by
    rw [Int.floor_eq_iff]
    constructor <;> norm_num
  have := round3_hi hfl (by norm_num)
  rw [this]
  norm_num

end RoundingLemmas

section SortLemmas

lemma sortDesc_perm (l : List Match) : List.Perm (sortDesc l) l :=
  List.perm_insertionSort _ l

lemma mem_sortDesc {m : Match} {l : List Match} : m ∈ sortDesc l ↔ m ∈ l :=
  (sortDesc_perm l).mem_iff

lemma sortDesc_length (l : List Match) : (sortDesc l).length = l.length :=
  (sortDesc_perm l).length_eq

lemma sortDesc_sorted (l : List Match) :
    List.Sorted (fun x y => y.similarity ≤ x.similarity) (sortDesc l) := by
  haveI : IsTotal Match (fun x y => y.similarity ≤ x.similarity) :=
    ⟨fun a b => le_total b.similarity a.similarity⟩
  haveI : IsTrans Match (fun x y => y.similarity ≤ x.similarity) :=
    ⟨fun a b c hab hbc => le_trans hbc hab⟩
  exact List.sorted_insertionSort _ l

lemma sortDesc_pair_sublist {x y : Match} {l : List Match}
    (hxy : y.similarity ≤ x.similarity) (h : List.Sublist [x, y] l) :
    List.Sublist [x, y] (sortDesc l) :=
  List.pair_sublist_insertionSort hxy h

end SortLemmas

section FindDuplicatesLemmas

lemma find_duplicates_nil (nb : Bug) (t : ℝ) : find_duplicates nb [] t = [] := by
  simp [find_duplicates, sortDesc]

lemma find_duplicates_singleton_kept {nb c : Bug} {t : ℝ}
    (h : t ≤ (calculate_bug_similarity nb c defaultWeights).1) :
    find_duplicates nb [c] t = [mkMatch nb c] := by
  unfold find_duplicates
  rw [List.filterMap_cons]
  simp [h, sortDesc]

lemma find_duplicates_singleton_dropped {nb c : Bug} {t : ℝ}
    (h : ¬ t ≤ (calculate_bug_similarity nb c defaultWeights).1) :
    find_duplicates nb [c] t = [] := by
  unfold find_duplicates
  rw [List.filterMap_cons]
  simp [h, sortDesc]

lemma filterMap_length_mono {α β : Type} (f g : α → Option β)
    (hfg : ∀ c m, f c = some m → g c = some m) :
    ∀ l : List α, (l.filterMap f).length ≤ (l.filterMap g).length := by
  intro l
  induction l with
  | nil => simp
  | cons c cs ih =>
    rw [List.filterMap_cons, List.filterMap_cons]
    cases hf : f c with
    | none =>
      calc (cs.filterMap f).length ≤ (cs.filterMap g).length := ih
        _ ≤ _ := by cases hg : g c <;> simp
    | some m =>
      rw [hfg c m hf]
      simpa using ih

lemma mem_find_duplicates {nb : Bug} {corpus : List Bug} {t : ℝ} {m : Match} :
    m ∈ find_duplicates nb corpus t ↔
      ∃ c ∈ corpus, t ≤ (calculate_bug_similarity nb c defaultWeights).1 ∧
        m = mkMatch nb c := by
  unfold find_duplicates
  rw [mem_sortDesc, List.mem_filterMap]
  constructor
  · rintro ⟨c, hc, hsome⟩
    by_cases h : t ≤ (calculate_bug_similarity nb c defaultWeights).1
    · rw [if_pos h] at hsome
      exact ⟨c, hc, h, (Option.some_injective _ hsome).symm⟩
    · rw [if_neg h] at hsome
      exact absurd hsome (Option.noConfusion)
  · rintro ⟨c, hc, h, rfl⟩
    exact ⟨c, hc, by rw [if_pos h]⟩

end FindDuplicatesLemmas

section ConcreteObjects

/-- A report with every field absent. -/
def emptyBug : Bug := ⟨none, none, none, none, none, none⟩

/-- A malformed config: weights sum to 0.99. -/
noncomputable def w099 : Weights := ⟨0.40, 0.40, 0.10, 0.09⟩

/-- A malformed config: weights sum to 1.01. -/
noncomputable def w101 : Weights := ⟨0.40, 0.40, 0.10, 0.11⟩

/-- A config whose weights sum to 1.00000005, within the 1e-6 tolerance. -/
noncomputable def wNear : Weights := ⟨0.40, 0.40, 0.10, 0.10000005⟩

/-- A valid config different from the default one. -/
noncomputable def wSwap : Weights := ⟨0.10, 0.10, 0.40, 0.40⟩

/-- New report for the rounding scenario: component `x`, steps `ab`. -/
def nbTen : Bug := ⟨none, none, none, none, some ['x'], some ['a', 'b']⟩

/-- Candidate for the rounding scenario: component `x`, steps `abcd`;
its unrounded score against `nbTen` is `1/6 = 0.16666…`, which rounds to
`0.167`. -/
def candTen : Bug :=
  ⟨some ['K'], none, none, none, some ['x'], some ['a', 'b', 'c', 'd']⟩

end ConcreteObjects

section ScoreEvaluation

lemma blank_score (k1 u1 k2 u2 : Option (List Char)) (w : Weights) :
    calculate_bug_similarity ⟨k1, u1, none, none, none, none⟩
        ⟨k2, u2, none, none, none, none⟩ w =
      (w.component + w.steps, ⟨0, 0, 1, 1, round3 (w.component + w.steps)⟩) := by
  have hsum : summary_sim ⟨k1, u1, none, none, none, none⟩
      ⟨k2, u2, none, none, none, none⟩ = 0 := by
    unfold summary_sim Bug.summaryText
    simp only [Option.getD_none]
    rw [cosine_nil_left tokenize_nil, keyword_nil_left tokenize_nil]
    norm_num
  have hdesc : desc_sim ⟨k1, u1, none, none, none, none⟩
      ⟨k2, u2, none, none, none, none⟩ = 0 := by
    unfold desc_sim Bug.descriptionText
    simp only [Option.getD_none]
    exact cosine_nil_left tokenize_nil []
  have hcomp : comp_sim ⟨k1, u1, none, none, none, none⟩
      ⟨k2, u2, none, none, none, none⟩ = 1 := by
    unfold comp_sim
    simp
  have hsteps : steps_sim ⟨k1, u1, none, none, none, none⟩
      ⟨k2, u2, none, none, none, none⟩ = 1 := by
    unfold steps_sim Bug.stepsText
    simp only [Option.getD_none]
    rw [sequence_similarity_self]
    norm_num
  unfold calculate_bug_similarity overallScore
  rw [hsum, hdesc, hcomp, hsteps]
  have harith : (0 : ℝ) * w.summary + 0 * w.description + 1 * w.component +
      1 * w.steps = w.component + w.steps := by ring
  rw [harith, round3_zero, round3_one]

lemma blank_score_empty (w : Weights) :
    calculate_bug_similarity emptyBug emptyBug w =
      (w.component + w.steps, ⟨0, 0, 1, 1, round3 (w.component + w.steps)⟩) :=
  blank_score none none none none w

lemma score_ten : calculate_bug_similarity nbTen candTen defaultWeights =
    (1 / 6, ⟨0, 0, 1, 667 / 1000, 167 / 1000⟩) := by
  have hsum : summary_sim nbTen candTen = 0 := by
    unfold summary_sim Bug.summaryText nbTen candTen
    simp only [Option.getD_none]
    rw [cosine_nil_left tokenize_nil, keyword_nil_left tokenize_nil]
    norm_num
  have hdesc : desc_sim nbTen candTen = 0 := by
    unfold desc_sim Bug.descriptionText nbTen candTen
    simp only [Option.getD_none]
    exact cosine_nil_left tokenize_nil []
  have hcomp : comp_sim nbTen candTen = 1 := by
    unfold comp_sim nbTen candTen
    simp
  have hseq : sequence_similarity ['a', 'b'] ['a', 'b', 'c', 'd'] = 2 / 3 := by
    unfold sequence_similarity
    have hmap1 : List.map lowerChar ['a', 'b'] = ['a', 'b'] := by decide
    have hmap2 : List.map lowerChar ['a', 'b', 'c', 'd'] = ['a', 'b', 'c', 'd'] := by decide
    rw [hmap1, hmap2]
    unfold ratioQ
    have hM : matchTotal ['a', 'b'] ['a', 'b', 'c', 'd'] = 2 := by decide
    rw [if_neg (by decide), hM]
    norm_num
  have hsteps : steps_sim nbTen candTen = ((2 / 3 : ℚ) : ℝ) := by
    unfold steps_sim Bug.stepsText nbTen candTen
    simp only [Option.getD_some]
    rw [hseq]
  have hcast : ((2 / 3 : ℚ) : ℝ) = 2 / 3 := by push_cast; ring
  unfold calculate_bug_similarity overallScore
  rw [hsum, hdesc, hcomp, hsteps, hcast]
  have harith : (0 : ℝ) * defaultWeights.summary + 0 * defaultWeights.description +
      1 * defaultWeights.component + 2 / 3 * defaultWeights.steps = 1 / 6 := by
    unfold defaultWeights
    norm_num
  rw [harith, round3_zero, round3_one, round3_twothirds, round3_sixth]

end ScoreEvaluation

/-- C1 counterexample: the claim says a WeightConfig summing to 0.99 makes
scoring raise a ConfigurationError before any comparison, with no breakdown
produced.  In the script, scoring with such a config succeeds and returns a
full `(overall, breakdown)` pair: the embedding is a total function and
evaluates to an ordinary result at the malformed config `w099`. -/
theorem claim1_counterexample :
    ¬ Weights.sumsWithinTolerance w099 ∧
      calculate_bug_similarity emptyBug emptyBug w099 =
        (19 / 100, ⟨0, 0, 1, 1, 19 / 100⟩) := by
  constructor
  · intro h
    unfold Weights.sumsWithinTolerance w099 at h
    rw [abs_le] at h
    obtain ⟨h1, h2⟩ := h
    norm_num at h1
  · rw [blank_score_empty]
    have h1 : w099.component + w099.steps = 19 / 100 := by
      unfold w099
      norm_num
    rw [h1]
    have h2 : (19 / 100 : ℝ) = ((190 : ℤ) : ℝ) / 1000 := by norm_num
    rw [h2, round3_exact]

/-- C1 (amended): `calculate_bug_similarity` performs no validation of the
weights whatsoever — no ConfigurationError exists in the script.  Configs
summing to 0.99, to 1.01 and to 1.00000005 are all accepted alike, and each
produces a score and a breakdown (here on a pair of all-empty reports the
score is just `component + steps` weight). -/
theorem claim1_amended :
    ¬ Weights.sumsWithinTolerance w099 ∧
      ¬ Weights.sumsWithinTolerance w101 ∧
      Weights.sumsWithinTolerance wNear ∧
      (calculate_bug_similarity emptyBug emptyBug w099).1 = 19 / 100 ∧
      (calculate_bug_similarity emptyBug emptyBug w101).1 = 21 / 100 ∧
      (calculate_bug_similarity emptyBug emptyBug wNear).1 = 20000005 / 100000000 := by
  refine ⟨?_, ?_, ?_, ?_, ?_, ?_⟩
  · intro h
    unfold Weights.sumsWithinTolerance w099 at h
    rw [abs_le] at h
    obtain ⟨h1, h2⟩ := h
    norm_num at h1
  · intro h
    unfold Weights.sumsWithinTolerance w101 at h
    rw [abs_le] at h
    obtain ⟨h1, h2⟩ := h
    norm_num at h2
  · unfold Weights.sumsWithinTolerance wNear
    rw [abs_le]
    constructor <;> norm_num
  · rw [blank_score_empty]
    unfold w099
    norm_num
  · rw [blank_score_empty]
    unfold w101
    norm_num
  · rw [blank_score_empty]
    unfold wNear
    norm_num

/-- C2 counterexample: `find_duplicates` does not take a WeightConfig at
all.  `wSwap` is a valid config under which the empty-vs-empty pair scores
0.8 while the default weights give 0.2, yet `find_duplicates` (whose only
inputs are the report, the corpus and a threshold) returns the
default-weight score 0.2: no supplied config can influence it. -/
theorem claim2_counterexample :
    Weights.sumsWithinTolerance wSwap ∧
      (calculate_bug_similarity emptyBug emptyBug wSwap).1 = 4 / 5 ∧
      (calculate_bug_similarity emptyBug emptyBug defaultWeights).1 = 1 / 5 ∧
      find_duplicates emptyBug [emptyBug] 0 = [mkMatch emptyBug emptyBug] ∧
      (mkMatch emptyBug emptyBug).similarity = 1 / 5 := by
  have hdef : (calculate_bug_similarity emptyBug emptyBug defaultWeights).1 = 1 / 5 := by
    rw [blank_score_empty]
    unfold defaultWeights
    norm_num
  refine ⟨?_, ?_, hdef, ?_, ?_⟩
  · unfold Weights.sumsWithinTolerance wSwap
    rw [abs_le]
    constructor <;> norm_num
  · rw [blank_score_empty]
    unfold wSwap
    norm_num
  · exact find_duplicates_singleton_kept (by rw [hdef]; norm_num)
  · show (calculate_bug_similarity emptyBug emptyBug defaultWeights).1 = 1 / 5
    exact hdef

/-- C2 (amended): every match `find_duplicates` returns comes from some
corpus element scored with the DEFAULT weights — the function accepts no
WeightConfig, so its scores can never vary with one. -/
theorem claim2_amended (nb : Bug) (corpus : List Bug) (t : ℝ) (m : Match)
    (hm : m ∈ find_duplicates nb corpus t) :
    ∃ c ∈ corpus, m = mkMatch nb c ∧
      t ≤ (calculate_bug_similarity nb c defaultWeights).1 := by
  rw [mem_find_duplicates] at hm
  obtain ⟨c, hc, hle, rfl⟩ := hm
  exact ⟨c, hc, rfl, hle⟩

/-- Witness for C2 (amended), at the one-candidate corpus `[emptyBug]`. -/
theorem claim2_witness :
    ∃ c ∈ [emptyBug], mkMatch emptyBug emptyBug = mkMatch emptyBug c ∧
      (0 : ℝ) ≤ (calculate_bug_similarity emptyBug c defaultWeights).1 := by
  have hdef : (0 : ℝ) ≤ (calculate_bug_similarity emptyBug emptyBug defaultWeights).1 := by
    rw [blank_score_empty]
    unfold defaultWeights
    norm_num
  exact claim2_amended emptyBug [emptyBug] 0 (mkMatch emptyBug emptyBug)
    (by rw [find_duplicates_singleton_kept hdef]; exact List.mem_singleton_self _)

/-- C3 counterexample: the claim (and its example) says `"foo_bar"` yields
the tokens `foo` and `bar`.  The script's pattern `\b[a-zA-Z0-9]+\b`
treats `_` as a word character, so neither run has a word boundary next to
the underscore and the string yields NO tokens at all. -/
theorem claim3_counterexample :
    tokenize ['f', 'o', 'o', '_', 'b', 'a', 'r'] = [] ∧
      ([] : List (List Char)) ≠ [['f', 'o', 'o'], ['b', 'a', 'r']] := by
  constructor
  · decide
  · decide

/-- C3 (amended): on input containing no underscore the tokenizer agrees
with the spec's contract (ordered, lower-cased maximal alphanumeric runs,
duplicates preserved, empty input giving the empty sequence); maximal runs
adjacent to an underscore are dropped entirely, so e.g. `"foo_bar"` yields
`[]` rather than `["foo", "bar"]`. -/
theorem claim3_amended (text : List Char) (h : '_' ∉ text) :
    tokenize text = specTokenize text :=
  tokenize_eq_specTokenize h

/-- Witness for C3 (amended) on the underscore-free string `"foo bar"`. -/
theorem claim3_witness :
    tokenize ['f', 'o', 'o', ' ', 'b', 'a', 'r'] =
      specTokenize ['f', 'o', 'o', ' ', 'b', 'a', 'r'] :=
  claim3_amended ['f', 'o', 'o', ' ', 'b', 'a', 'r'] (by decide)

/-- C4 counterexample: a report with `component` absent against a report
whose `component` is the empty string "" scores 0.0 on the component field,
not the 1.0 the claim requires: the script compares `dict.get('component')`
values with no default, and `None == ''` is false in Python. -/
theorem claim4_counterexample :
    (calculate_bug_similarity ⟨none, none, none, none, none, none⟩
        ⟨none, none, none, none, some [], none⟩ defaultWeights).2.component = 0 := by
  show round3 (comp_sim ⟨none, none, none, none, none, none⟩
    ⟨none, none, none, none, some [], none⟩) = 0
  unfold comp_sim
  rw [if_neg (by simp)]
  exact round3_zero

/-- C4 (amended): the component similarity in the breakdown is the
indicator of equality of the raw optional `component` values: two present
components compare as exact case-sensitive strings, absent matches only
absent — in particular an absent component and an explicit empty string
give 0.0, while two absent components give 1.0. -/
theorem claim4_amended (b1 b2 : Bug) (w : Weights) :
    (calculate_bug_similarity b1 b2 w).2.component =
      if b1.component = b2.component then 1 else 0 := by
  show round3 (comp_sim b1 b2) = if b1.component = b2.component then 1 else 0
  unfold comp_sim
  by_cases h : b1.component = b2.component
  · rw [if_pos h, round3_one]
  · rw [if_neg h, round3_zero]

/-- C5 counterexample: `"!"` is a non-empty text, but it tokenizes to no
tokens, so `cosine_similarity("!", "!")` is 0.0, not the 1.0 the claim
asserts for every non-empty text. -/
theorem claim5_counterexample :
    (['!'] : List Char) ≠ [] ∧ cosine_similarity ['!'] ['!'] = 0 := by
  constructor
  · decide
  · exact cosine_nil_left (by decide) ['!']

/-- C5 (amended): `VectorSimilarity(t, t) = 1.0` for every text `t` with at
least one alphanumeric token (rather than every non-empty text), and
`VectorSimilarity("", x) = 0.0` for every `x`. -/
theorem claim5_amended :
    (∀ t : List Char, tokenize t ≠ [] → cosine_similarity t t = 1) ∧
      ∀ x : List Char, cosine_similarity [] x = 0 :=
  ⟨fun _ h => cosine_self h, fun x => cosine_nil_left tokenize_nil x⟩

/-- Witness for C5 (amended) at `t = "a"` and `x = "b"`. -/
theorem claim5_witness :
    cosine_similarity ['a'] ['a'] = 1 ∧ cosine_similarity [] ['b'] = 0 :=
  ⟨claim5_amended.1 ['a'] (by decide), claim5_amended.2 ['b']⟩

/-- C6: SequenceSimilarity is 1.0 on identical strings (in particular every
pair of identical non-empty strings), 1.0 when both are empty, and 0.0 when
exactly one of the two is empty. -/
theorem claim6_sequence_edge_values :
    (∀ s : List Char, s ≠ [] → sequence_similarity s s = 1) ∧
      sequence_similarity [] [] = 1 ∧
      ∀ s : List Char, s ≠ [] →
        sequence_similarity [] s = 0 ∧ sequence_similarity s [] = 0 :=
  ⟨fun s _ => sequence_similarity_self s,
    sequence_similarity_self [],
    fun _ h => ⟨sequence_similarity_nil_left h, sequence_similarity_nil_right h⟩⟩

/-- Witness for C6 at `"ab"` (identical) and `"a"` (one side empty). -/
theorem claim6_witness :
    sequence_similarity ['a', 'b'] ['a', 'b'] = 1 ∧
      sequence_similarity [] ['a'] = 0 ∧ sequence_similarity ['a'] [] = 0 :=
  ⟨claim6_sequence_edge_values.1 ['a', 'b'] (by decide),
    (claim6_sequence_edge_values.2.2 ['a'] (by decide)).1,
    (claim6_sequence_edge_values.2.2 ['a'] (by decide)).2⟩

/-- C7: raising the threshold never enlarges the returned match list: with
`t1 ≤ t2` the matches at `t2` are no more numerous than at `t1`, and every
match returned at `t2` is among those returned at `t1`. -/
theorem claim7_threshold_monotone (nb : Bug) (corpus : List Bug) (t1 t2 : ℝ)
    (h : t1 ≤ t2) :
    (find_duplicates nb corpus t2).length ≤ (find_duplicates nb corpus t1).length ∧
      ∀ m ∈ find_duplicates nb corpus t2, m ∈ find_duplicates nb corpus t1 := by
  constructor
  · show (sortDesc _).length ≤ (sortDesc _).length
    rw [sortDesc_length, sortDesc_length]
    apply filterMap_length_mono
    · intro c m hcm
      by_cases h2 : t2 ≤ (calculate_bug_similarity nb c defaultWeights).1
      · rw [if_pos h2] at hcm
        rw [if_pos (le_trans h h2)]
        exact hcm
      · rw [if_neg h2] at hcm
        exact absurd hcm Option.noConfusion
  · intro m hm
    rw [mem_find_duplicates] at hm ⊢
    obtain ⟨c, hc, hle, rfl⟩ := hm
    exact ⟨c, hc, le_trans h hle, rfl⟩

/-- Witness for C7 at thresholds 0.1 ≤ 0.5 over the corpus `[emptyBug]`. -/
theorem claim7_witness :
    (find_duplicates emptyBug [emptyBug] (1 / 2)).length ≤
      (find_duplicates emptyBug [emptyBug] (1 / 10)).length :=
  (claim7_threshold_monotone emptyBug [emptyBug] (1 / 10) (1 / 2) (by norm_num)).1

/-- C8: the ranked output is sorted by score descending, and the sort is
stable: when a candidate `b` precedes a candidate `a` in the corpus and the
two have exactly equal (unrounded) overall scores at or above the
threshold, `b`'s match still precedes `a`'s match in the output. -/
theorem claim8_stable_ranking (nb b a : Bug) (l1 l2 l3 : List Bug) (t : ℝ)
    (heq : (calculate_bug_similarity nb b defaultWeights).1 =
      (calculate_bug_similarity nb a defaultWeights).1)
    (ht : t ≤ (calculate_bug_similarity nb b defaultWeights).1) :
    List.Sorted (fun x y => y.similarity ≤ x.similarity)
        (find_duplicates nb (l1 ++ b :: l2 ++ a :: l3) t) ∧
      List.Sublist [mkMatch nb b, mkMatch nb a]
        (find_duplicates nb (l1 ++ b :: l2 ++ a :: l3) t) := by
  constructor
  · exact sortDesc_sorted _
  · have hsub : List.Sublist [b, a] (l1 ++ b :: l2 ++ a :: l3) := by
      have h1 : List.Sublist [b, a] (b :: (l2 ++ a :: l3)) :=
        List.Sublist.cons₂ b
          (List.singleton_sublist.mpr (List.mem_append_right l2 (List.mem_cons_self a l3)))
      have h2 := h1.trans (List.sublist_append_right l1 (b :: (l2 ++ a :: l3)))
      have h3 : l1 ++ b :: l2 ++ a :: l3 = l1 ++ (b :: (l2 ++ a :: l3)) := by simp
      rw [h3]
      exact h2
    have hsub2 := List.Sublist.filterMap
      (fun candidate =>
        if t ≤ (calculate_bug_similarity nb candidate defaultWeights).1
        then some (mkMatch nb candidate) else none) hsub
    rw [List.filterMap_cons, List.filterMap_cons, List.filterMap_nil] at hsub2
    rw [if_pos ht, if_pos (heq ▸ ht)] at hsub2
    exact sortDesc_pair_sublist (le_of_eq heq.symm) hsub2

/-- Candidate `B`, listed first in the witness corpus for the stability
scenario; all content fields are absent, giving score 0.2. -/
def bugB : Bug := ⟨some ['B'], none, none, none, none, none⟩

/-- Candidate `A`, listed second in the witness corpus; same score 0.2. -/
def bugA : Bug := ⟨some ['A'], none, none, none, none, none⟩

/-- Witness for C8: both candidates score exactly 0.2, appear in corpus
order `[B, A]`, and the ranked output keeps `B` before `A`. -/
theorem claim8_witness :
    List.Sorted (fun x y => y.similarity ≤ x.similarity)
        (find_duplicates emptyBug [bugB, bugA] (1 / 10)) ∧
      List.Sublist [mkMatch emptyBug bugB, mkMatch emptyBug bugA]
        (find_duplicates emptyBug [bugB, bugA] (1 / 10)) := by
  have hB : calculate_bug_similarity emptyBug bugB defaultWeights =
      (defaultWeights.component + defaultWeights.steps,
        ⟨0, 0, 1, 1, round3 (defaultWeights.component + defaultWeights.steps)⟩) :=
    blank_score none none (some ['B']) none defaultWeights
  have hA : calculate_bug_similarity emptyBug bugA defaultWeights =
      (defaultWeights.component + defaultWeights.steps,
        ⟨0, 0, 1, 1, round3 (defaultWeights.component + defaultWeights.steps)⟩) :=
    blank_score none none (some ['A']) none defaultWeights
  have heq : (calculate_bug_similarity emptyBug bugB defaultWeights).1 =
      (calculate_bug_similarity emptyBug bugA defaultWeights).1 := by
    rw [hB, hA]
  have ht : (1 / 10 : ℝ) ≤ (calculate_bug_similarity emptyBug bugB defaultWeights).1 := by
    rw [hB]
    unfold defaultWeights
    norm_num
  exact claim8_stable_ranking emptyBug bugB bugA [] [] [] (1 / 10) heq ht

/-- New report for the C9 scenario. -/
def nbNine : Bug := ⟨none, none, some ['a'], some ['b'], some ['x'], some ['c']⟩

/-- Existing report for the C9 scenario: identical summary, description and
steps, but a different component string. -/
def ebNine : Bug := ⟨none, none, some ['a'], some ['b'], some ['y'], some ['c']⟩

/-- C9: identical summary, description and steps (each holding at least one
alphanumeric token) with differing components score exactly
`0.4*1 + 0.4*1 + 0.1*0 + 0.1*1 = 0.9` under the default weights, above the
0.85 high-confidence threshold. -/
theorem claim9_identical_but_component (nb eb : Bug)
    (hs : nb.summary = eb.summary) (hd : nb.description = eb.description)
    (hst : nb.steps_to_reproduce = eb.steps_to_reproduce)
    (h1 : tokenize nb.summaryText ≠ []) (h2 : tokenize nb.descriptionText ≠ [])
    (_h3 : tokenize nb.stepsText ≠ []) (hc : nb.component ≠ eb.component) :
    (calculate_bug_similarity nb eb defaultWeights).1 = 9 / 10 ∧
      (85 / 100 : ℝ) < 9 / 10 := by
  constructor
  · have hsEq : eb.summaryText = nb.summaryText := by
      unfold Bug.summaryText
      rw [hs]
    have hdEq : eb.descriptionText = nb.descriptionText := by
      unfold Bug.descriptionText
      rw [hd]
    have hstEq : eb.stepsText = nb.stepsText := by
      unfold Bug.stepsText
      rw [hst]
    show overallScore nb eb defaultWeights = 9 / 10
    have hsum : summary_sim nb eb = 1 := by
      unfold summary_sim
      rw [hsEq, cosine_self h1, keyword_overlap_self h1]
      norm_num
    have hdesc : desc_sim nb eb = 1 := by
      unfold desc_sim
      rw [hdEq]
      exact cosine_self h2
    have hcomp : comp_sim nb eb = 0 := by
      unfold comp_sim
      rw [if_neg hc]
    have hsteps : steps_sim nb eb = 1 := by
      unfold steps_sim
      rw [hstEq, sequence_similarity_self]
      norm_num
    unfold overallScore
    rw [hsum, hdesc, hcomp, hsteps]
    unfold defaultWeights
    norm_num
  · norm_num

/-- Witness for C9 at summary `"a"`, description `"b"`, steps `"c"` and
components `"x"` vs `"y"`. -/
theorem claim9_witness :
    (calculate_bug_similarity nbNine ebNine defaultWeights).1 = 9 / 10 :=
  (claim9_identical_but_component nbNine ebNine rfl rfl rfl
    (by decide) (by decide) (by decide) (by decide)).1

/-- C10: `find_duplicates` filters on the unrounded score.  The pair
`(nbTen, candTen)` scores exactly `1/6 = 0.16666…`, which rounds to the
breakdown value `0.167`: with threshold 0.167 the candidate is excluded
even though its rounded overall equals the threshold, while with a lower
threshold the retained Match stores the unrounded `1/6` in `similarity`
and the rounded `0.167` in its breakdown. -/
theorem claim10_unrounded_filter :
    (calculate_bug_similarity nbTen candTen defaultWeights).1 = 1 / 6 ∧
      (1 / 6 : ℝ) < 167 / 1000 ∧
      (calculate_bug_similarity nbTen candTen defaultWeights).2.overall = 167 / 1000 ∧
      find_duplicates nbTen [candTen] (167 / 1000) = [] ∧
      find_duplicates nbTen [candTen] (1 / 10) = [mkMatch nbTen candTen] ∧
      (mkMatch nbTen candTen).similarity = 1 / 6 ∧
      (mkMatch nbTen candTen).breakdown.overall = 167 / 1000 := by
  have hs : (calculate_bug_similarity nbTen candTen defaultWeights).1 = 1 / 6 := by
    rw [score_ten]
  have hb : (calculate_bug_similarity nbTen candTen defaultWeights).2.overall =
      167 / 1000 := by
    rw [score_ten]
  refine ⟨hs, by norm_num, hb, ?_, ?_, hs, hb⟩
  · apply find_duplicates_singleton_dropped
    rw [hs]
    norm_num
  · apply find_duplicates_singleton_kept
    rw [hs]
    norm_num

end SimilarityChecker
